import Mathlib

/-!
Verification of the document-linting orchestrator of the `vscode-vale`
extension (file `src/extension.ts`), against its natural-language
specification.

The development shallowly embeds the extension's pure logic:

* the Vale JSON finding type and its translation to editor diagnostics
  (`toSeverity`, `toDiagnostic`);
* the version gate (`getValeVersion`, `checkValeVersionSatisfies`),
  with Vale's semver requirement `>= 0.7.2` modelled concretely;
* the eligibility predicate (`isElligibleDocument`);
* the per-document linting controller (`lintDocumentToDiagnostics`),
  with the diagnostic store, the notification channel and the log of
  version queries made explicit as state;
* the workspace batch linter (`groupByWorkspace`, `mergeResults`,
  `lintWorkspaceCommand`), with store mutations reified as a trace of
  store operations.

JavaScript `Map` objects (the diagnostic collection, the by-folder
grouping map, the aggregated result map) are embedded as association
lists with JS `Map` semantics: `set` updates an existing key in place
and appends a fresh key at the end, preserving insertion order.
-/

namespace Vale

/-- Severity strings emitted by Vale (`type ValeSeverity` in the source). -/
inductive ValeSeverity
  | suggestion
  | warning
  | error
deriving DecidableEq, Repr

/-- Editor diagnostic severities (the `DiagnosticSeverity` enum of the host API). -/
inductive DiagnosticSeverity
  | Error
  | Warning
  | Information
  | Hint
deriving DecidableEq, Repr

/-- One finding of a Vale run, as decoded from Vale's JSON output
(`interface IValeErrorJSON` in the source).  Numeric JSON fields are
embedded as `Int` (JavaScript numbers; the subtractions in
`toDiagnostic` do not truncate). -/
structure IValeErrorJSON where
  Check : String
  Context : String
  Description : String
  Line : Int
  Link : String
  Message : String
  Span : Int × Int
  Severity : ValeSeverity
deriving DecidableEq, Repr

/-- A zero-based editor range (the host `Range` constructed with
start line, start character, end line, end character). -/
structure Range where
  startLine : Int
  startCharacter : Int
  endLine : Int
  endCharacter : Int
deriving DecidableEq, Repr

/-- A host diagnostic as built by `toDiagnostic`: range, message,
severity, plus the `source` and `code` fields assigned afterwards. -/
structure Diagnostic where
  range : Range
  message : String
  severity : DiagnosticSeverity
  source : String
  code : String
deriving DecidableEq, Repr

/-- `toSeverity` from the source: map a Vale severity string to a host
diagnostic severity. -/
def toSeverity : ValeSeverity → DiagnosticSeverity
  | ValeSeverity.suggestion => DiagnosticSeverity.Information
  | ValeSeverity.warning => DiagnosticSeverity.Warning
  | ValeSeverity.error => DiagnosticSeverity.Error

/-- `toDiagnostic` from the source: convert one Vale finding to a host
diagnostic.  Vale prints one-based locations; the line and the span
start are decremented, the span end is taken unchanged.  The message
mentions the reference link exactly when Vale supplied one (a JS
truthiness test on the `Link` string: non-empty means present). -/
def toDiagnostic (error : IValeErrorJSON) : Diagnostic :=
  { range :=
      { startLine := error.Line - 1
        startCharacter := error.Span.1 - 1
        endLine := error.Line - 1
        endCharacter := error.Span.2 }
    message :=
      if error.Link == "" then
        error.Message ++ " (" ++ error.Check ++ ")"
      else
        error.Message ++ " (" ++ error.Check ++ ", see " ++ error.Link ++ ")"
    severity := toSeverity error.Severity
    source := "vale"
    code := error.Check }

/-- The failure taxonomy of the extension: a process-launch failure, a
JSON parse failure, a missing-version-line failure thrown by
`getValeVersion`, or the too-old-version failure thrown by
`checkValeVersionSatisfies`. -/
inductive VError
  | processError (message : String)
  | parseError (message : String)
  | versionParseError (stdout : String)
  | incompatibleVersion (version : String)
deriving DecidableEq, Repr

/-- The string a caught failure is shown to the user as
(`error.toString()` in the source). -/
def VError.toMessage : VError → String
  | VError.processError m => "Error: " ++ m
  | VError.parseError m => "SyntaxError: " ++ m
  | VError.versionParseError stdout =>
      "Error: Failed to extract vale version from: " ++ stdout
  | VError.incompatibleVersion v =>
      "Error: Vale version " ++ v ++ " does not satisfy >= 0.7.2"

/-- Split a character list at every occurrence of a separator
character (the line and dot splitting the source does through regex
matching and `semver` parsing). -/
def splitOnChar (c : Char) : List Char → List (List Char)
  | [] => [[]]
  | a :: rest =>
    if a = c then
      [] :: splitOnChar c rest
    else
      match splitOnChar c rest with
      | [] => [[a]]
      | l :: ls => (a :: l) :: ls

/-- Whether a character list begins with the given beginning. -/
def listStartsWith : List Char → List Char → Bool
  | _, [] => true
  | [], _ :: _ => false
  | a :: as, b :: bs => (a = b) && listStartsWith as bs

/-- The numeric value of a decimal digit character. -/
def digitVal? (c : Char) : Option Nat :=
  if c.isDigit then some (c.toNat - 48) else none

/-- Accumulate decimal digits into a number; any non-digit fails. -/
def listToNatAux : List Char → Nat → Option Nat
  | [], acc => some acc
  | c :: cs, acc =>
    match digitVal? c with
    | some d => listToNatAux cs (acc * 10 + d)
    | none => none

/-- Parse a non-empty all-digit character list as a number. -/
def listToNat? : List Char → Option Nat
  | [] => none
  | c :: cs => listToNatAux (c :: cs) 0

/-- The literal text of the version-line pattern. -/
def versionLinePattern : List Char := "vale version ".toList

/-- One line of the multiline regex match `^vale version (.+)$` in
`getValeVersion`: the line matches when it starts with the literal
text and the captured remainder is non-empty (`.+`). -/
def versionLineMatch (line : List Char) : Option (List Char) :=
  if listStartsWith line versionLinePattern then
    match line.drop versionLinePattern.length with
    | [] => none
    | c :: cs => some (c :: cs)
  else
    none

/-- `getValeVersion` from the source, applied to the standard output of
`vale --version`: extract the version token from the first line
matching `^vale version (.+)$`, or fail with the version-parse error. -/
def getValeVersion (stdout : String) : Except VError String :=
  match (splitOnChar '\n' stdout.toList).findSome? versionLineMatch with
  | some v => Except.ok (String.mk v)
  | none => Except.error (VError.versionParseError stdout)

/-- Parse a dotted `major.minor.patch` version with numeric components,
as the semver library does for release versions; anything else (such as
the sentinel `master`) is not a valid semver version. -/
def parseSemver (s : String) : Option (Nat × Nat × Nat) :=
  match splitOnChar '.' s.toList with
  | [a, b, c] =>
    match listToNat? a, listToNat? b, listToNat? c with
    | some x, some y, some z => some (x, y, z)
    | _, _, _ => none
  | _ => none

/-- Lexicographic comparison of version triples. -/
def versionAtLeast (v req : Nat × Nat × Nat) : Bool :=
  req.1 < v.1 ||
    (v.1 == req.1 &&
      (req.2.1 < v.2.1 || (v.2.1 == req.2.1 && req.2.2 ≤ v.2.2)))

/-- The minimum version of the requirement string `">= 0.7.2"`
(`VERSION_REQUIREMENTS` in the source). -/
def VERSION_REQUIREMENTS_MIN : Nat × Nat × Nat := (0, 7, 2)

/-- `semver.satisfies(version, ">= 0.7.2")`: true when the string is a
valid release version at least the minimum; false for invalid version
strings. -/
def semverSatisfiesMin (s : String) : Bool :=
  match parseSemver s with
  | some v => versionAtLeast v VERSION_REQUIREMENTS_MIN
  | none => false

/-- `checkValeVersionSatisfies` from the source, applied to the
standard output of `vale --version`: extract the version and fail
unless it satisfies `>= 0.7.2` or is the literal sentinel `master`. -/
def checkValeVersionSatisfies (stdout : String) : Except VError Unit :=
  match getValeVersion stdout with
  | Except.error e => Except.error e
  | Except.ok version =>
    if semverSatisfiesMin version || version == "master" then
      Except.ok ()
    else
      Except.error (VError.incompatibleVersion version)

/-- Association-list embedding of a JavaScript `Map` (used for the
host diagnostic collection, Vale results and the by-folder grouping).
`mapGet` returns the value of the first entry with the given key. -/
def mapGet {κ α : Type} [DecidableEq κ] : List (κ × α) → κ → Option α
  | [], _ => none
  | (k, v) :: rest, j => if j = k then some v else mapGet rest j

/-- JS `Map.set`: update an existing key in place, append a fresh key
at the end (insertion order is preserved). -/
def mapSet {κ α : Type} [DecidableEq κ] (m : List (κ × α)) (k : κ) (v : α) :
    List (κ × α) :=
  if m.any (fun p => p.1 = k) then
    m.map (fun p => if p.1 = k then (k, v) else p)
  else
    m ++ [(k, v)]

/-- JS `Map.delete` (also the host diagnostic collection's `delete`):
remove every entry with the given key. -/
def mapDelete {κ α : Type} [DecidableEq κ] (m : List (κ × α)) (k : κ) :
    List (κ × α) :=
  m.filter (fun p => p.1 ≠ k)

/-- The diagnostic store and Vale result type: a map from file path to
the diagnostics of that file (`ValeDiagnostics` in the source). -/
abbrev DiagMap := List (String × List Diagnostic)

/-- `result.forEach((fileDiagnostics, fileName) => diagnostics.set(...))`:
write every entry of a result map into a store, in order. -/
def forEachSet {κ α : Type} [DecidableEq κ] (store result : List (κ × α)) :
    List (κ × α) :=
  result.foldl (fun acc p => mapSet acc p.1 p.2) store

/-- A host text document as observed by the extension: its file path,
whether it has unsaved modifications, its URI scheme and its language
identifier. -/
structure TextDocument where
  fileName : String
  isDirty : Bool
  scheme : String
  languageId : String
deriving DecidableEq, Repr

/-- `languages.match({ scheme: "file" }, document)` from the source:
the selector names only a scheme, so the score is positive exactly when
the document's URI scheme is `file`; the language is not consulted. -/
def languagesMatchFileScheme (document : TextDocument) : Nat :=
  if document.scheme == "file" then 5 else 0

/-- `isElligibleDocument` from the source: a document is eligible when
it is not dirty and the scheme-only selector scores positively. -/
def isElligibleDocument (document : TextDocument) : Bool :=
  !document.isDirty && decide (0 < languagesMatchFileScheme document)

/-- Modelled from the spec: the default recognized text formats of the
Eligibility Filter (Markdown, reStructuredText, LaTeX, plain text,
AsciiDoc), given as language identifiers.  This is the specification's
side of the refinement comparison for the eligibility claim; the
source code of `isElligibleDocument` has no such list. -/
def specRecognizedLanguages : List String :=
  ["markdown", "restructuredtext", "latex", "plaintext", "asciidoc"]

/-- Modelled from the spec: the eligibility predicate as the
specification states it — no unsaved modifications and a recognized
format.  Stated only to be compared with `isElligibleDocument`. -/
def specIsEligible (document : TextDocument) : Bool :=
  !document.isDirty && specRecognizedLanguages.contains document.languageId

/-- The environment one per-document lint run observes: the owning
workspace folder of a path (`workspace.getWorkspaceFolder`, a folder
given by its index), the outcome of `checkValeVersionSatisfies` for a
folder (a process run plus version parse and comparison), and the
outcome of `runVale` on the document (process run plus JSON parse). -/
structure LintEnv where
  getFolder : String → Option Nat
  versionCheck : Option Nat → Except VError Unit
  valeResult : Except VError DiagMap

/-- The observable state a per-document lint run mutates: the host
diagnostic collection, the error notifications shown to the user, and
the log of `vale --version` queries actually performed (one entry per
invocation, recording the folder it was issued for). -/
structure LintState where
  store : DiagMap
  notifications : List String
  versionQueries : List (Option Nat)
deriving DecidableEq, Repr

/-- `lintDocumentToDiagnostics` from the source.  Returns the state
after the run together with `some e` when an exception escapes the
handler (rejecting its promise) rather than being caught.

Faithful to the source's control flow: the eligibility check returns
early; `checkValeVersionSatisfies` is awaited *outside* the
`try`/`catch`, so its failure escapes; inside the `try`, a `runVale`
failure is caught, shown as a notification and the document's store
entry deleted; on success the stale entry is deleted and then every
entry of the result written. -/
def lintDocumentToDiagnostics (env : LintEnv) (document : TextDocument)
    (s : LintState) : LintState × Option VError :=
  if !(isElligibleDocument document) then (s, none)
  else
    let folder := env.getFolder document.fileName
    let s1 : LintState :=
      { s with versionQueries := s.versionQueries ++ [folder] }
    match env.versionCheck folder with
    | Except.error e => (s1, some e)
    | Except.ok _ =>
      match env.valeResult with
      | Except.error e =>
          ({ s1 with
              notifications := s1.notifications ++ [e.toMessage]
              store := mapDelete s1.store document.fileName }, none)
      | Except.ok result =>
          ({ s1 with
              store := forEachSet (mapDelete s1.store document.fileName) result },
            none)

/-- A session: a sequence of document lifecycle events, each handled by
`lintDocumentToDiagnostics`.  Handlers are independent; a rejected
promise of one handler does not stop later events. -/
def lintSequence (env : LintEnv) (documents : List TextDocument)
    (s : LintState) : LintState :=
  documents.foldl (fun st d => (lintDocumentToDiagnostics env d st).1) s

/-- The loop body of `groupByWorkspace` from the source: fold the URI
list into the `byFolder` map, appending each path owned by a workspace
folder to that folder's group and dropping paths owned by none. -/
def groupByWorkspaceAux (getFolder : String → Option Nat) :
    List String → List (Nat × List String) → List (Nat × List String)
  | [], byFolder => byFolder
  | uri :: rest, byFolder =>
    groupByWorkspaceAux getFolder rest
      (match getFolder uri with
        | some idx => mapSet byFolder idx (((mapGet byFolder idx).getD []) ++ [uri])
        | none => byFolder)

/-- `groupByWorkspace` from the source: group a list of file paths by
their owning workspace folder (folders identified by index), yielding
the groups in first-insertion order as a JS `Map` does. -/
def groupByWorkspace (getFolder : String → Option Nat) (uris : List String) :
    List (Nat × List String) :=
  groupByWorkspaceAux getFolder uris []

/-- The merge loop of `runValeOnWorkspace`: given the outcome of the
one `runVale` invocation per group, in group order, fold the folder
results into the aggregate map with `results.set`; the first failed
invocation aborts the run. -/
def mergeResults : List (Except VError DiagMap) → DiagMap → Except VError DiagMap
  | [], results => Except.ok results
  | Except.error e :: _, _ => Except.error e
  | Except.ok folderResults :: rest, results =>
    mergeResults rest (forEachSet results folderResults)

/-- `runValeOnWorkspace` from the source: group the enumerated files by
workspace folder, run Vale once per group (`valeOf` gives each
invocation's outcome) and merge the per-folder results. -/
def runValeOnWorkspace (valeOf : Nat × List String → Except VError DiagMap)
    (getFolder : String → Option Nat) (uris : List String) :
    Except VError DiagMap :=
  mergeResults ((groupByWorkspace getFolder uris).map valeOf) []

/-- One mutation of the host diagnostic collection. -/
inductive StoreOp
  | clearOp
  | setOp (fileName : String) (fileDiagnostics : List Diagnostic)
  | deleteOp (fileName : String)
deriving DecidableEq, Repr

/-- Apply one store mutation. -/
def applyStoreOp (store : DiagMap) : StoreOp → DiagMap
  | StoreOp.clearOp => []
  | StoreOp.setOp k v => mapSet store k v
  | StoreOp.deleteOp k => mapDelete store k

/-- Apply a trace of store mutations in order. -/
def applyStoreOps (store : DiagMap) (ops : List StoreOp) : DiagMap :=
  ops.foldl applyStoreOp store

/-- The `vale.lintWorkspace` command handler from `registerCommands`,
reified as the trace of store mutations it performs, given the outcome
of `runValeOnWorkspace`.  The handler has no `catch`: a failed run
rejects the promise (`some e`) having performed no store mutation; a
successful run clears the whole store and then writes every entry of
the aggregate. -/
def lintWorkspaceCommand (runResult : Except VError DiagMap) :
    List StoreOp × Option VError :=
  match runResult with
  | Except.error e => ([], some e)
  | Except.ok result =>
    (StoreOp.clearOp :: result.map (fun p => StoreOp.setOp p.1 p.2), none)

/-- A concrete Vale finding (spec example: line 4, span `[2, 8]`). -/
def exFinding : IValeErrorJSON :=
  { Check := "vale.Editorializing"
    Context := "Very unique"
    Description := ""
    Line := 4
    Link := ""
    Message := "Avoid using very"
    Span := (2, 8)
    Severity := ValeSeverity.warning }

/-- A clean, saved Markdown document. -/
def exDocument : TextDocument :=
  { fileName := "/ws/README.md"
    isDirty := false
    scheme := "file"
    languageId := "markdown" }

/-- A clean, saved document in a format the spec does not recognize. -/
def cleanPythonDocument : TextDocument :=
  { fileName := "/ws/script.py"
    isDirty := false
    scheme := "file"
    languageId := "python" }

/-- A state whose store holds a stale entry for `exDocument`. -/
def staleState : LintState :=
  { store := [("/ws/README.md", [toDiagnostic exFinding])]
    notifications := []
    versionQueries := [] }

/-- An environment in which the version gate itself fails to launch. -/
def versionFailEnv : LintEnv :=
  { getFolder := fun _ => some 0
    versionCheck := fun _ => Except.error (VError.processError ("spawn vale ENOENT"))
    valeResult := Except.ok [] }

/-- An environment in which the version gate passes but the Vale run
fails to parse. -/
def valeFailEnv : LintEnv :=
  { getFolder := fun _ => some 0
    versionCheck := fun _ => Except.ok ()
    valeResult := Except.error (VError.parseError ("Unexpected end of JSON input")) }

/-- An environment in which everything succeeds and the document has
one finding. -/
def okEnv : LintEnv :=
  { getFolder := fun _ => some 0
    versionCheck := fun _ => Except.ok ()
    valeResult := Except.ok [("/ws/README.md", [toDiagnostic exFinding])] }

/-- An environment in which everything succeeds and the linted file is
clean (absent from Vale's JSON). -/
def cleanEnv : LintEnv :=
  { getFolder := fun _ => some 0
    versionCheck := fun _ => Except.ok ()
    valeResult := Except.ok [] }

/-- The empty lint state. -/
def emptyState : LintState :=
  { store := [], notifications := [], versionQueries := [] }

/-- The spec's batch-grouping example: three files under two roots. -/
def exUris : List String := ["/r1/a.md", "/r1/b.md", "/r2/c.md"]

/-- Owning-root assignment for the batch example (`/r1` is folder 0,
`/r2` is folder 1, anything else is outside every root). -/
def exGetFolder (u : String) : Option Nat :=
  if listStartsWith u.toList ("/r1/".toList) then some 0
  else if listStartsWith u.toList ("/r2/".toList) then some 1
  else none

/-- Per-invocation Vale outcome for the batch example: each invocation
succeeds and reports one (empty) entry per file it was passed. -/
def exValeOf (g : Nat × List String) : Except VError DiagMap :=
  Except.ok (g.2.map (fun p => (p, ([] : List Diagnostic))))

theorem mapGet_nil {κ α : Type} [DecidableEq κ] (j : κ) :
    mapGet ([] : List (κ × α)) j = none := rfl

theorem mapGet_cons {κ α : Type} [DecidableEq κ] (k j : κ) (v : α)
    (rest : List (κ × α)) :
    mapGet ((k, v) :: rest) j = if j = k then some v else mapGet rest j := rfl

theorem mapSet_nil {κ α : Type} [DecidableEq κ] (k : κ) (v : α) :
    mapSet ([] : List (κ × α)) k v = [(k, v)] := rfl

theorem mapSet_cons_self {κ α : Type} [DecidableEq κ] (k : κ) (b v : α)
    (rest : List (κ × α)) :
    mapSet ((k, b) :: rest) k v =
      (k, v) :: rest.map (fun p => if p.1 = k then (k, v) else p) := by
  unfold mapSet
  simp

theorem mapSet_cons_ne {κ α : Type} [DecidableEq κ] (a k : κ) (b v : α)
    (rest : List (κ × α)) (ha : a ≠ k) :
    mapSet ((a, b) :: rest) k v = (a, b) :: mapSet rest k v := by
  unfold mapSet
  simp only [List.any_cons, decide_eq_true_eq, ha, decide_False, Bool.false_or]
  by_cases hr : rest.any (fun p => decide (p.1 = k)) = true
  · simp [hr, ha]
  · simp only [Bool.not_eq_true] at hr
    simp [hr, ha]

theorem mapGet_map_update_ne {κ α : Type} [DecidableEq κ]
    (m : List (κ × α)) (k j : κ) (v : α) (h : j ≠ k) :
    mapGet (m.map (fun p => if p.1 = k then (k, v) else p)) j = mapGet m j := by
  induction m with
  | nil => rfl
  | cons p rest ih =>
    obtain ⟨a, b⟩ := p
    by_cases ha : a = k
    · subst ha
      simp only [List.map_cons]
      rw [if_pos trivial, mapGet_cons, if_neg h, mapGet_cons, if_neg h]
      exact ih
    · simp only [List.map_cons]
      rw [if_neg (show ¬((a, b) : κ × α).1 = k from ha), mapGet_cons, mapGet_cons]
      by_cases hj : j = a
      · rw [if_pos hj, if_pos hj]
      · rw [if_neg hj, if_neg hj]
        exact ih

theorem mapGet_mapSet_self {κ α : Type} [DecidableEq κ]
    (m : List (κ × α)) (k : κ) (v : α) :
    mapGet (mapSet m k v) k = some v := by
  induction m with
  | nil => simp [mapSet, mapGet]
  | cons p rest ih =>
    obtain ⟨a, b⟩ := p
    by_cases ha : a = k
    · subst ha
      rw [mapSet_cons_self, mapGet_cons, if_pos rfl]
    · rw [mapSet_cons_ne a k b v rest ha, mapGet_cons,
        if_neg (fun hk => ha hk.symm), ih]

theorem mapGet_mapSet_ne {κ α : Type} [DecidableEq κ]
    (m : List (κ × α)) (k j : κ) (v : α) (h : j ≠ k) :
    mapGet (mapSet m k v) j = mapGet m j := by
  induction m with
  | nil => simp [mapSet, mapGet, h]
  | cons p rest ih =>
    obtain ⟨a, b⟩ := p
    by_cases ha : a = k
    · subst ha
      rw [mapSet_cons_self]
      simp only [mapGet_cons, if_neg h]
      exact mapGet_map_update_ne _ _ _ _ h
    · rw [mapSet_cons_ne a k b v rest ha, mapGet_cons, mapGet_cons, ih]

theorem mapDelete_nil {κ α : Type} [DecidableEq κ] (k : κ) :
    mapDelete ([] : List (κ × α)) k = [] := rfl

theorem mapDelete_cons_self {κ α : Type} [DecidableEq κ] (k : κ) (b : α)
    (rest : List (κ × α)) :
    mapDelete ((k, b) :: rest) k = mapDelete rest k := by
  unfold mapDelete
  simp [List.filter_cons]

theorem mapDelete_cons_ne {κ α : Type} [DecidableEq κ] (a k : κ) (b : α)
    (rest : List (κ × α)) (ha : a ≠ k) :
    mapDelete ((a, b) :: rest) k = (a, b) :: mapDelete rest k := by
  unfold mapDelete
  simp [List.filter_cons, ha]

theorem mapGet_mapDelete_self {κ α : Type} [DecidableEq κ]
    (m : List (κ × α)) (k : κ) :
    mapGet (mapDelete m k) k = none := by
  induction m with
  | nil => rfl
  | cons p rest ih =>
    obtain ⟨a, b⟩ := p
    by_cases ha : a = k
    · subst ha
      rw [mapDelete_cons_self, ih]
    · rw [mapDelete_cons_ne a k b rest ha, mapGet_cons,
        if_neg (fun hk => ha hk.symm), ih]

theorem mapGet_mapDelete_ne {κ α : Type} [DecidableEq κ]
    (m : List (κ × α)) (k j : κ) (h : j ≠ k) :
    mapGet (mapDelete m k) j = mapGet m j := by
  induction m with
  | nil => rfl
  | cons p rest ih =>
    obtain ⟨a, b⟩ := p
    by_cases ha : a = k
    · subst ha
      rw [mapDelete_cons_self, mapGet_cons, if_neg h, ih]
    · rw [mapDelete_cons_ne a k b rest ha, mapGet_cons, mapGet_cons, ih]

theorem forEachSet_nil {κ α : Type} [DecidableEq κ] (store : List (κ × α)) :
    forEachSet store [] = store := rfl

theorem forEachSet_cons {κ α : Type} [DecidableEq κ] (store : List (κ × α))
    (k : κ) (v : α) (rest : List (κ × α)) :
    forEachSet store ((k, v) :: rest) = forEachSet (mapSet store k v) rest := rfl

theorem mapGet_eq_none_of_not_mem_keys {κ α : Type} [DecidableEq κ]
    (m : List (κ × α)) (j : κ) (h : j ∉ m.map Prod.fst) :
    mapGet m j = none := by
  induction m with
  | nil => rfl
  | cons p rest ih =>
    obtain ⟨a, b⟩ := p
    simp only [List.map_cons, List.mem_cons, not_or] at h
    rw [mapGet_cons, if_neg h.1, ih h.2]

theorem mapGet_forEachSet_of_none {κ α : Type} [DecidableEq κ]
    (store result : List (κ × α)) (j : κ) (h : mapGet result j = none) :
    mapGet (forEachSet store result) j = mapGet store j := by
  induction result generalizing store with
  | nil => rfl
  | cons p rest ih =>
    obtain ⟨k, v⟩ := p
    rw [mapGet_cons] at h
    by_cases hj : j = k
    · rw [if_pos hj] at h
      cases h
    · rw [if_neg hj] at h
      rw [forEachSet_cons, ih (mapSet store k v) h, mapGet_mapSet_ne store k j v hj]

theorem mapGet_forEachSet_of_some {κ α : Type} [DecidableEq κ]
    (store result : List (κ × α)) (j : κ) (v : α)
    (hnd : (result.map Prod.fst).Nodup) (h : mapGet result j = some v) :
    mapGet (forEachSet store result) j = some v := by
  induction result generalizing store with
  | nil => cases h
  | cons p rest ih =>
    obtain ⟨k, w⟩ := p
    simp only [List.map_cons, List.nodup_cons] at hnd
    rw [mapGet_cons] at h
    by_cases hj : j = k
    · rw [if_pos hj] at h
      have hw : w = v := by injection h
      subst hw
      subst hj
      have hrest : mapGet rest j = none :=
        mapGet_eq_none_of_not_mem_keys rest j hnd.1
      rw [forEachSet_cons,
        mapGet_forEachSet_of_none (mapSet store j w) rest j hrest,
        mapGet_mapSet_self]
    · rw [if_neg hj] at h
      rw [forEachSet_cons]
      exact ih (mapSet store k w) hnd.2 h

theorem groupByWorkspaceAux_cons_none (getFolder : String → Option Nat)
    (u : String) (rest : List String) (byFolder : List (Nat × List String))
    (hgu : getFolder u = none) :
    groupByWorkspaceAux getFolder (u :: rest) byFolder =
      groupByWorkspaceAux getFolder rest byFolder := by
  simp only [groupByWorkspaceAux, hgu]

theorem groupByWorkspaceAux_cons_some (getFolder : String → Option Nat)
    (u : String) (rest : List String) (byFolder : List (Nat × List String))
    (j : Nat) (hgu : getFolder u = some j) :
    groupByWorkspaceAux getFolder (u :: rest) byFolder =
      groupByWorkspaceAux getFolder rest
        (mapSet byFolder j (((mapGet byFolder j).getD []) ++ [u])) := by
  simp only [groupByWorkspaceAux, hgu]

theorem mapGet_groupByWorkspaceAux (getFolder : String → Option Nat)
    (uris : List String) (byFolder : List (Nat × List String)) (idx : Nat) :
    mapGet (groupByWorkspaceAux getFolder uris byFolder) idx =
      (if (uris.filter (fun u => getFolder u == some idx)).isEmpty then
        mapGet byFolder idx
      else
        some ((mapGet byFolder idx).getD [] ++
          uris.filter (fun u => getFolder u == some idx))) := by
  induction uris generalizing byFolder with
  | nil => simp [groupByWorkspaceAux]
  | cons u rest ih =>
    cases hgu : getFolder u with
    | none =>
      have hfc : List.filter (fun u2 => getFolder u2 == some idx) (u :: rest) =
          List.filter (fun u2 => getFolder u2 == some idx) rest := by
        rw [List.filter_cons]
        simp [hgu]
      rw [groupByWorkspaceAux_cons_none getFolder u rest byFolder hgu,
        ih byFolder, hfc]
    | some j =>
      by_cases hji : j = idx
      · rw [hji] at hgu
        have hfc : List.filter (fun u2 => getFolder u2 == some idx) (u :: rest) =
            u :: List.filter (fun u2 => getFolder u2 == some idx) rest := by
          rw [List.filter_cons]
          simp [hgu]
        rw [groupByWorkspaceAux_cons_some getFolder u rest byFolder idx hgu,
          ih (mapSet byFolder idx (((mapGet byFolder idx).getD []) ++ [u])),
          mapGet_mapSet_self, hfc,
          if_neg (show ¬((u :: List.filter (fun u2 => getFolder u2 == some idx)
            rest).isEmpty = true) from by simp)]
        by_cases hemp :
            (List.filter (fun u2 => getFolder u2 == some idx) rest).isEmpty
        · rw [if_pos hemp]
          rw [List.isEmpty_iff] at hemp
          rw [hemp]
        · rw [if_neg hemp]
          simp
      · have hfc : List.filter (fun u2 => getFolder u2 == some idx) (u :: rest) =
            List.filter (fun u2 => getFolder u2 == some idx) rest := by
          rw [List.filter_cons]
          simp [hgu, hji]
        rw [groupByWorkspaceAux_cons_some getFolder u rest byFolder j hgu,
          ih (mapSet byFolder j (((mapGet byFolder j).getD []) ++ [u])),
          mapGet_mapSet_ne byFolder j idx _ (fun hk => hji hk.symm), hfc]

theorem mapGet_groupByWorkspace (getFolder : String → Option Nat)
    (uris : List String) (idx : Nat) :
    mapGet (groupByWorkspace getFolder uris) idx =
      (if (uris.filter (fun u => getFolder u == some idx)).isEmpty then none
      else some (uris.filter (fun u => getFolder u == some idx))) := by
  rw [groupByWorkspace, mapGet_groupByWorkspaceAux]
  simp [mapGet]

theorem mergeResults_error_of_mem (rs : List (Except VError DiagMap))
    (acc : DiagMap) (e : VError) (h : Except.error e ∈ rs) :
    ∃ e2, mergeResults rs acc = Except.error e2 := by
  induction rs generalizing acc with
  | nil => cases h
  | cons r rest ih =>
    cases r with
    | error e1 => exact ⟨e1, rfl⟩
    | ok m =>
      rw [List.mem_cons] at h
      rcases h with h | h
      · cases h
      · simp only [mergeResults]
        exact ih (forEachSet acc m) h

theorem mergeResults_ok_of_forall (rs : List (Except VError DiagMap))
    (acc : DiagMap) (h : ∀ r ∈ rs, ∃ m, r = Except.ok m) :
    ∃ result, mergeResults rs acc = Except.ok result := by
  induction rs generalizing acc with
  | nil => exact ⟨acc, rfl⟩
  | cons r rest ih =>
    obtain ⟨m, hm⟩ := h r (List.mem_cons_self r rest)
    subst hm
    simp only [mergeResults]
    exact ih (forEachSet acc m) (fun r2 hr => h r2 (List.mem_cons_of_mem _ hr))

theorem applyStoreOps_setOps (store result : DiagMap) :
    applyStoreOps store (result.map (fun p => StoreOp.setOp p.1 p.2)) =
      forEachSet store result := by
  induction result generalizing store with
  | nil => rfl
  | cons p rest ih =>
    obtain ⟨k, v⟩ := p
    simp only [List.map_cons, applyStoreOps, List.foldl_cons]
    exact ih (mapSet store k v)

/-- C1 (counterexample): `cleanPythonDocument` is clean and in a format
outside the spec's recognized list, yet `isElligibleDocument` accepts
it — refuting "a clean document in an unrecognized format is never
eligible". -/
theorem claim1_counterexample :
    isElligibleDocument cleanPythonDocument = true ∧
    cleanPythonDocument.isDirty = false ∧
    specRecognizedLanguages.contains cleanPythonDocument.languageId = false ∧
    specIsEligible cleanPythonDocument = false :=
  ⟨rfl, rfl, rfl, rfl⟩

/-- C1 (amended): the eligibility predicate returns true iff the
document has no unsaved modifications and its URI scheme is `file`
(saved to disk); the document's language/format is not consulted, so a
dirty document is never eligible but a clean file-scheme document is
eligible whatever its format. -/
theorem claim1_eligibility (document : TextDocument) :
    isElligibleDocument document =
      (!document.isDirty && document.scheme == "file") := by
  unfold isElligibleDocument languagesMatchFileScheme
  by_cases h : document.scheme == "file"
  · simp [h]
  · simp [h]

/-- C2 (counterexample): with an eligible document and a version gate
that fails to launch, the failure escapes `lintDocumentToDiagnostics`
(the handler's promise rejects), no notification is produced, and the
document's stale store entry survives — refuting "every failure is
caught, converted to a notification, and the entry deleted". -/
theorem claim2_counterexample :
    (lintDocumentToDiagnostics versionFailEnv exDocument staleState).2 =
      some (VError.processError ("spawn vale ENOENT")) ∧
    (lintDocumentToDiagnostics versionFailEnv exDocument
      staleState).1.notifications = [] ∧
    mapGet (lintDocumentToDiagnostics versionFailEnv exDocument
      staleState).1.store ("/ws/README.md") = some [toDiagnostic exFinding] :=
  ⟨rfl, rfl, rfl⟩

/-- C2 (amended): for an eligible document, a failure of the Vale run
itself (process launch or JSON parse) is caught inside the controller,
surfaced as one notification, and the document's store entry deleted;
but a Version Gate failure is not caught: it escapes the controller
with the store and the notifications unchanged. -/
theorem claim2_error_containment (env : LintEnv) (document : TextDocument)
    (s : LintState) (helig : isElligibleDocument document = true) :
    (∀ e, env.versionCheck (env.getFolder document.fileName) = Except.error e →
      lintDocumentToDiagnostics env document s =
        ({ s with versionQueries :=
            s.versionQueries ++ [env.getFolder document.fileName] }, some e)) ∧
    (∀ e, env.versionCheck (env.getFolder document.fileName) = Except.ok () →
      env.valeResult = Except.error e →
      lintDocumentToDiagnostics env document s =
        ({ store := mapDelete s.store document.fileName
           notifications := s.notifications ++ [e.toMessage]
           versionQueries :=
             s.versionQueries ++ [env.getFolder document.fileName] }, none)) := by
  constructor
  · intro e he
    simp [lintDocumentToDiagnostics, helig, he]
  · intro e hok hvale
    simp [lintDocumentToDiagnostics, helig, hok, hvale]

/-- C2 (witness): the amended behaviour at concrete inputs — a
version-gate failure escapes keeping the stale entry, and a Vale parse
failure is caught with a notification and the entry deleted. -/
theorem claim2_error_containment_witness :
    lintDocumentToDiagnostics versionFailEnv exDocument staleState =
      ({ staleState with versionQueries := [some 0] },
        some (VError.processError ("spawn vale ENOENT"))) ∧
    lintDocumentToDiagnostics valeFailEnv exDocument staleState =
      ({ store := []
         notifications :=
           [(VError.parseError ("Unexpected end of JSON input")).toMessage]
         versionQueries := [some 0] }, none) :=
  ⟨(claim2_error_containment versionFailEnv exDocument staleState rfl).1 _ rfl,
    (claim2_error_containment valeFailEnv exDocument staleState rfl).2 _ rfl rfl⟩

/-- C3 (counterexample): linting the same eligible document of the same
project root twice in one session performs the linter's version query
twice — refuting "the Version Gate check is executed at most once per
project root for the lifetime of the session". -/
theorem claim3_counterexample :
    (lintSequence okEnv [exDocument, exDocument] emptyState).versionQueries =
      [some 0, some 0] :=
  rfl

/-- C3 (amended): the Version Gate is invoked on every per-document
lint of an eligible document: each run appends exactly one version
query for the document's root to the query log; no result is cached
across lints. -/
theorem claim3_version_gate_every_lint (env : LintEnv)
    (document : TextDocument) (s : LintState)
    (helig : isElligibleDocument document = true) :
    (lintDocumentToDiagnostics env document s).1.versionQueries =
      s.versionQueries ++ [env.getFolder document.fileName] := by
  simp only [lintDocumentToDiagnostics, helig, Bool.not_true]
  cases env.versionCheck (env.getFolder document.fileName) with
  | error e => simp
  | ok u =>
    cases env.valeResult with
    | error e => simp
    | ok result => simp

/-- C3 (witness): the amended theorem at a concrete input. -/
theorem claim3_version_gate_every_lint_witness :
    (lintDocumentToDiagnostics okEnv exDocument emptyState).1.versionQueries =
      [some 0] :=
  claim3_version_gate_every_lint okEnv exDocument emptyState rfl

/-- C4 (confirmed): for every Finding, the derived diagnostic's range
is the single-line range from `(Line-1, Span.start-1)` to
`(Line-1, Span.end)` — line and start column decremented, end column
unchanged; in particular `Line=4, Span=[2,8]` gives `(3,1)-(3,8)`. -/
theorem claim4_range_translation (e : IValeErrorJSON) :
    (toDiagnostic e).range =
      { startLine := e.Line - 1
        startCharacter := e.Span.1 - 1
        endLine := e.Line - 1
        endCharacter := e.Span.2 } ∧
    (toDiagnostic exFinding).range =
      { startLine := 3, startCharacter := 1, endLine := 3, endCharacter := 8 } :=
  ⟨rfl, rfl⟩

/-- C5 (confirmed): severity maps exactly suggestion→informational,
warning→warning, error→error with no fourth case; the message is
`"<Message> (<Check>, see <Link>)"` when a link is present and
`"<Message> (<Check>)"` otherwise; the code is the Check identifier and
the source is the constant `"vale"`. -/
theorem claim5_severity_message_metadata (e : IValeErrorJSON) :
    toSeverity ValeSeverity.suggestion = DiagnosticSeverity.Information ∧
    toSeverity ValeSeverity.warning = DiagnosticSeverity.Warning ∧
    toSeverity ValeSeverity.error = DiagnosticSeverity.Error ∧
    (∀ sv : ValeSeverity, sv = ValeSeverity.suggestion ∨
      sv = ValeSeverity.warning ∨ sv = ValeSeverity.error) ∧
    (toDiagnostic e).severity = toSeverity e.Severity ∧
    (toDiagnostic e).message =
      (if e.Link == "" then
        e.Message ++ " (" ++ e.Check ++ ")"
      else
        e.Message ++ " (" ++ e.Check ++ ", see " ++ e.Link ++ ")") ∧
    (toDiagnostic e).code = e.Check ∧
    (toDiagnostic e).source = "vale" := by
  refine ⟨rfl, rfl, rfl, ?_, rfl, rfl, rfl, rfl⟩
  intro sv
  cases sv
  · exact Or.inl rfl
  · exact Or.inr (Or.inl rfl)
  · exact Or.inr (Or.inr rfl)

/-- C6 (confirmed): the version gate rejects `vale version 0.7.1` with
the incompatible-version error, accepts `0.7.2`, accepts the sentinel
`master`, and rejects output with no matching line with the distinct
version-parse error. -/
theorem claim6_version_gate_cases :
    checkValeVersionSatisfies ("vale version 0.7.1") =
      Except.error (VError.incompatibleVersion ("0.7.1")) ∧
    checkValeVersionSatisfies ("vale version 0.7.2") = Except.ok () ∧
    checkValeVersionSatisfies ("vale version master") = Except.ok () ∧
    checkValeVersionSatisfies ("this tool prints no version line") =
      Except.error
        (VError.versionParseError ("this tool prints no version line")) ∧
    (∀ s v, VError.versionParseError s ≠ VError.incompatibleVersion v) := by
  refine ⟨rfl, rfl, rfl, rfl, ?_⟩
  intro s v h
  cases h

/-- C7 (confirmed): after a successful per-document lint the stale
entry is deleted before the new results are written, so a document
absent from the returned LintResult (a clean file) has no store entry
afterwards. -/
theorem claim7_clean_file_deleted (env : LintEnv) (document : TextDocument)
    (s : LintState) (result : DiagMap)
    (helig : isElligibleDocument document = true)
    (hver : env.versionCheck (env.getFolder document.fileName) = Except.ok ())
    (hvale : env.valeResult = Except.ok result)
    (habsent : mapGet result document.fileName = none) :
    (lintDocumentToDiagnostics env document s).1.store =
      forEachSet (mapDelete s.store document.fileName) result ∧
    mapGet (lintDocumentToDiagnostics env document s).1.store
      document.fileName = none := by
  have hstore : (lintDocumentToDiagnostics env document s).1.store =
      forEachSet (mapDelete s.store document.fileName) result := by
    simp [lintDocumentToDiagnostics, helig, hver, hvale]
  refine ⟨hstore, ?_⟩
  rw [hstore,
    mapGet_forEachSet_of_none (mapDelete s.store document.fileName) result
      document.fileName habsent,
    mapGet_mapDelete_self]

/-- C7 (witness): the clean-file property at a concrete input: after a
successful lint returning an empty result, the stale entry is gone. -/
theorem claim7_clean_file_deleted_witness :
    mapGet (lintDocumentToDiagnostics cleanEnv exDocument
      staleState).1.store ("/ws/README.md") = none :=
  (claim7_clean_file_deleted cleanEnv exDocument staleState [] rfl rfl rfl
    rfl).2

/-- C10 (confirmed): a successful per-document lint returns normally
and writes one store entry for every key of the LintResult — not only
the linted document — while the entries of files that are neither the
linted document nor a key of the result are unchanged, and the linted
document's entry is deleted exactly when it is absent from the
result. -/
theorem claim10_frame_effect (env : LintEnv) (document : TextDocument)
    (s : LintState) (result : DiagMap)
    (helig : isElligibleDocument document = true)
    (hver : env.versionCheck (env.getFolder document.fileName) = Except.ok ())
    (hvale : env.valeResult = Except.ok result)
    (hnd : (result.map Prod.fst).Nodup) :
    (lintDocumentToDiagnostics env document s).2 = none ∧
    (∀ k v, mapGet result k = some v →
      mapGet (lintDocumentToDiagnostics env document s).1.store k = some v) ∧
    (∀ k, mapGet result k = none → k ≠ document.fileName →
      mapGet (lintDocumentToDiagnostics env document s).1.store k =
        mapGet s.store k) ∧
    (mapGet result document.fileName = none →
      mapGet (lintDocumentToDiagnostics env document s).1.store
        document.fileName = none) := by
  have hstore : (lintDocumentToDiagnostics env document s).1.store =
      forEachSet (mapDelete s.store document.fileName) result := by
    simp [lintDocumentToDiagnostics, helig, hver, hvale]
  refine ⟨?_, ?_, ?_, ?_⟩
  · simp [lintDocumentToDiagnostics, helig, hver, hvale]
  · intro k v hk
    rw [hstore]
    exact mapGet_forEachSet_of_some (mapDelete s.store document.fileName)
      result k v hnd hk
  · intro k hk hkd
    rw [hstore,
      mapGet_forEachSet_of_none (mapDelete s.store document.fileName) result
        k hk,
      mapGet_mapDelete_ne s.store document.fileName k hkd]
  · intro hk
    rw [hstore,
      mapGet_forEachSet_of_none (mapDelete s.store document.fileName) result
        document.fileName hk,
      mapGet_mapDelete_self]

/-- C10 (witness): the frame effect at a concrete input: a result
mentioning the linted file and a second file writes both entries, and
an unrelated third entry is untouched. -/
theorem claim10_frame_effect_witness :
    mapGet (lintDocumentToDiagnostics okEnv exDocument
      staleState).1.store ("/ws/README.md") = some [toDiagnostic exFinding] :=
  (claim10_frame_effect okEnv exDocument staleState
    [("/ws/README.md", [toDiagnostic exFinding])] rfl rfl rfl
    (by simp)).2.1 ("/ws/README.md") [toDiagnostic exFinding] rfl

/-- C8 (confirmed): the workspace batch run mutates the store only
after every per-root invocation and parse has succeeded: when any
group's run fails the command performs no store operation (the store
keeps its pre-run state, with no partial clear), and when all succeed
the trace is exactly `clear()` followed by one write per entry of the
merged result. -/
theorem claim8_atomic_replacement (rs : List (Except VError DiagMap))
    (store : DiagMap) :
    ((∃ e, Except.error e ∈ rs) →
      ∃ e2, lintWorkspaceCommand (mergeResults rs []) = ([], some e2) ∧
        applyStoreOps store [] = store) ∧
    ((∀ r ∈ rs, ∃ m, r = Except.ok m) →
      ∃ result, mergeResults rs [] = Except.ok result ∧
        lintWorkspaceCommand (mergeResults rs []) =
          (StoreOp.clearOp :: result.map (fun p => StoreOp.setOp p.1 p.2),
            none) ∧
        applyStoreOps store
          (StoreOp.clearOp :: result.map (fun p => StoreOp.setOp p.1 p.2)) =
          forEachSet [] result) := by
  constructor
  · intro he
    obtain ⟨e, hmem⟩ := he
    obtain ⟨e2, herr⟩ := mergeResults_error_of_mem rs [] e hmem
    exact ⟨e2, by rw [herr]; rfl, rfl⟩
  · intro hok
    obtain ⟨result, hres⟩ := mergeResults_ok_of_forall rs [] hok
    refine ⟨result, hres, by rw [hres]; rfl, ?_⟩
    show applyStoreOps []
      (result.map (fun p => StoreOp.setOp p.1 p.2)) = forEachSet [] result
    exact applyStoreOps_setOps [] result

/-- C8 (witness): the atomic-replacement behaviour at concrete inputs —
a failing group leaves an empty mutation trace, and an all-success run
clears and republishes. -/
theorem claim8_atomic_replacement_witness :
    (∃ e2, lintWorkspaceCommand
      (mergeResults [Except.error (VError.processError ("spawn vale ENOENT"))]
        []) = ([], some e2) ∧
      applyStoreOps [("/r1/a.md", [toDiagnostic exFinding])] [] =
        [("/r1/a.md", [toDiagnostic exFinding])]) ∧
    (∃ result, mergeResults [Except.ok [("/r1/a.md", [])]] [] =
        Except.ok result ∧
      lintWorkspaceCommand (mergeResults [Except.ok [("/r1/a.md", [])]] []) =
        (StoreOp.clearOp :: result.map (fun p => StoreOp.setOp p.1 p.2),
          none) ∧
      applyStoreOps [("/r1/a.md", [toDiagnostic exFinding])]
        (StoreOp.clearOp :: result.map (fun p => StoreOp.setOp p.1 p.2)) =
        forEachSet [] result) :=
  ⟨(claim8_atomic_replacement
      [Except.error (VError.processError ("spawn vale ENOENT"))]
      [("/r1/a.md", [toDiagnostic exFinding])]).1
      ⟨VError.processError ("spawn vale ENOENT"), List.mem_singleton.mpr rfl⟩,
    (claim8_atomic_replacement [Except.ok [("/r1/a.md", [])]]
      [("/r1/a.md", [toDiagnostic exFinding])]).2
      (fun r hr => ⟨[("/r1/a.md", [])], by simpa using hr⟩)⟩

/-- C9 (confirmed): the batch linter's grouping assigns each enumerated
file to exactly the group of its owning root (files under no root are
dropped, so no two groups share a file); on the spec's example of three
files under two roots it issues exactly two invocations with the
correct subsets, and the merged result has exactly the three file
keys. -/
theorem claim9_batch_grouping :
    (∀ (getFolder : String → Option Nat) (uris : List String) (idx : Nat)
      (u : String),
      u ∈ (mapGet (groupByWorkspace getFolder uris) idx).getD [] ↔
        (u ∈ uris ∧ getFolder u = some idx)) ∧
    groupByWorkspace exGetFolder exUris =
      [(0, ["/r1/a.md", "/r1/b.md"]), (1, ["/r2/c.md"])] ∧
    runValeOnWorkspace exValeOf exGetFolder exUris =
      Except.ok [("/r1/a.md", []), ("/r1/b.md", []), ("/r2/c.md", [])] := by
  refine ⟨?_, rfl, rfl⟩
  intro getFolder uris idx u
  rw [mapGet_groupByWorkspace]
  by_cases hemp : (uris.filter (fun u2 => getFolder u2 == some idx)).isEmpty
  · rw [if_pos hemp]
    rw [List.isEmpty_iff] at hemp
    constructor
    · intro hcon
      exact absurd hcon (List.not_mem_nil u)
    · intro hcon
      have hmem : u ∈ uris.filter (fun u2 => getFolder u2 == some idx) :=
        List.mem_filter.mpr ⟨hcon.1, by simp [hcon.2]⟩
      rw [hemp] at hmem
      exact absurd hmem (List.not_mem_nil u)
  · rw [if_neg hemp]
    simp only [Option.getD_some]
    rw [List.mem_filter]
    simp

end Vale
